import Mathlib

/-!
Verification development for a slice of the srsRAN gNB codebase.

The definitions below are shallow embeddings of the C++ sources:

* `lib/phy/upper/channel_processors/pdsch/pdsch_processor_concurrent_impl.cpp`
  (PDSCH transmit pipeline: `save_inputs`, `process`, `fork_cb_batches`);
* `lib/cu_cp/ue_manager/ue_manager_impl.cpp` (UE manager);
* `lib/f1u/cu_up/f1u_bearer_impl.h` (CU-UP F1-U bearer);
* the CU-CP connectivity behaviour exercised by
  `tests/unittests/cu_cp/cu_cp_connectivity_test.cpp`.

Machine integers are modelled as `Nat` with explicit `% 2 ^ 32` where the C++
arithmetic is 32-bit and could conceivably wrap.  Stateful code is modelled as
explicit state passing; concurrent code is modelled as small-step traces
quantified over all interleavings.
-/

namespace srsran

/-- Ceiling integer division, as `divide_ceil` in srsran `support/math_utils.h`:
`(num + (den - 1)) / den`. -/
def divide_ceil (num den : Nat) : Nat := (num + (den - 1)) / den

namespace pdsch_processor_concurrent_impl

/-! ### Rate-match length derivation (`save_inputs`, lines 145-215) -/

/-- Number of segments with a short (rounded-down) rate-matched length,
`save_inputs` line 148: `nof_cb - (nof_re_pdsch % nof_cb)`. -/
def nof_short_segments (nof_re_pdsch nof_cb : Nat) : Nat :=
  nof_cb - nof_re_pdsch % nof_cb

/-- Rate-match length in resource elements for codeblock `i_cb`,
`save_inputs` lines 193-198: `divide_ceil` by default, rounded down (`/`) for
the first `nof_short_segments` codeblocks. -/
def rm_length_re (nof_re_pdsch nof_cb i_cb : Nat) : Nat :=
  if i_cb < nof_short_segments nof_re_pdsch nof_cb then nof_re_pdsch / nof_cb
  else divide_ceil nof_re_pdsch nof_cb

/-- Rate-match length in bits for codeblock `i_cb`, `save_inputs` line 201:
`rm_length_re * nof_layers * bits_per_symbol`. -/
def rm_length (nof_re_pdsch nof_cb nof_layers bits_per_symbol i_cb : Nat) : Nat :=
  rm_length_re nof_re_pdsch nof_cb i_cb * nof_layers * bits_per_symbol

/-- Codeword length in bits, `save_inputs` line 169:
`nof_re_pdsch * nof_layers * bits_per_symbol`. -/
def cw_length (nof_re_pdsch nof_layers bits_per_symbol : Nat) : Nat :=
  nof_re_pdsch * nof_layers * bits_per_symbol

lemma divide_ceil_of_mod_pos {a b : Nat} (hb : 0 < b) (hr : 0 < a % b) :
    divide_ceil a b = a / b + 1 := by
  unfold divide_ceil
  have hdecomp := Nat.div_add_mod a b
  set q := a / b with hq
  set r := a % b with hr'
  have hrb : r < b := Nat.mod_lt _ hb
  have : a + (b - 1) = b * q + (r + b - 1) := by omega
  rw [this]
  rw [Nat.mul_add_div hb]
  have : (r + b - 1) / b = 1 := by
    apply Nat.div_eq_of_lt_le <;> omega
  omega

lemma divide_ceil_of_mod_zero {a b : Nat} (hb : 0 < b) (hr : a % b = 0) :
    divide_ceil a b = a / b := by
  unfold divide_ceil
  have hdecomp := Nat.div_add_mod a b
  set q := a / b with hq
  have : a + (b - 1) = b * q + (b - 1) := by omega
  rw [this, Nat.mul_add_div hb]
  have : (b - 1) / b = 0 := Nat.div_eq_of_lt (by omega)
  omega

lemma sum_rm_length_re (re n : Nat) (hn : 0 < n) :
    (∑ i in Finset.range n, rm_length_re re n i) = re := by
  have hrn : re % n < n := Nat.mod_lt _ hn
  have hs_le : nof_short_segments re n ≤ n := Nat.sub_le _ _
  have hdecomp := Nat.div_add_mod re n
  -- split the sum at the short/long boundary
  rw [Finset.range_eq_Ico,
    ← Finset.sum_Ico_consecutive _ (Nat.zero_le (nof_short_segments re n)) hs_le]
  have h1 : (∑ i in Finset.Ico 0 (nof_short_segments re n), rm_length_re re n i)
      = nof_short_segments re n * (re / n) := by
    have hc : ∀ i ∈ Finset.Ico 0 (nof_short_segments re n),
        rm_length_re re n i = re / n := by
      intro i hi
      simp only [Finset.mem_Ico] at hi
      exact if_pos hi.2
    rw [Finset.sum_congr rfl hc, Finset.sum_const, Nat.card_Ico, smul_eq_mul,
      Nat.sub_zero]
  have h2 : (∑ i in Finset.Ico (nof_short_segments re n) n, rm_length_re re n i)
      = (n - nof_short_segments re n) * divide_ceil re n := by
    have hc : ∀ i ∈ Finset.Ico (nof_short_segments re n) n,
        rm_length_re re n i = divide_ceil re n := by
      intro i hi
      simp only [Finset.mem_Ico] at hi
      exact if_neg (Nat.not_lt_of_ge hi.1)
    rw [Finset.sum_congr rfl hc, Finset.sum_const, Nat.card_Ico, smul_eq_mul]
  rw [h1, h2]
  unfold nof_short_segments
  by_cases hr : re % n = 0
  · rw [divide_ceil_of_mod_zero hn hr]
    have hns : n - re % n = n := by omega
    rw [hns]
    have : n - n = 0 := Nat.sub_self n
    rw [this, Nat.zero_mul, Nat.add_zero]
    omega
  · rw [divide_ceil_of_mod_pos hn (Nat.pos_of_ne_zero hr)]
    have hsub : n - (n - re % n) = re % n := by omega
    rw [hsub]
    have e1 : (n - re % n) * (re / n) = n * (re / n) - re % n * (re / n) :=
      Nat.sub_mul _ _ _
    have e2 : re % n * (re / n + 1) = re % n * (re / n) + re % n := by ring
    have e3 : re % n * (re / n) ≤ n * (re / n) :=
      Nat.mul_le_mul_right _ (Nat.le_of_lt hrn)
    omega

/-- C3: for every validated PDSCH PDU, the per-codeblock rate-match lengths
derived at `process()` entry sum to the codeword length in bits
(`nof_re_pdsch * nof_layers * bits_per_symbol`); the first
`nof_cb - (nof_re_pdsch mod nof_cb)` segments (the short segments) have their
RE length rounded down and the remaining segments have it rounded up. -/
theorem rm_length_spec (nof_re_pdsch nof_cb nof_layers bits_per_symbol : Nat)
    (hn : 0 < nof_cb) :
    (∑ i in Finset.range nof_cb,
        rm_length nof_re_pdsch nof_cb nof_layers bits_per_symbol i)
      = cw_length nof_re_pdsch nof_layers bits_per_symbol
    ∧ nof_short_segments nof_re_pdsch nof_cb
        = nof_cb - nof_re_pdsch % nof_cb
    ∧ (∀ i, i < nof_short_segments nof_re_pdsch nof_cb →
        rm_length_re nof_re_pdsch nof_cb i = nof_re_pdsch / nof_cb)
    ∧ (∀ i, nof_short_segments nof_re_pdsch nof_cb ≤ i →
        rm_length_re nof_re_pdsch nof_cb i = divide_ceil nof_re_pdsch nof_cb) := by
  refine ⟨?_, rfl, ?_, ?_⟩
  · have hfact : ∀ i, rm_length nof_re_pdsch nof_cb nof_layers bits_per_symbol i
        = rm_length_re nof_re_pdsch nof_cb i * (nof_layers * bits_per_symbol) := by
      intro i
      unfold rm_length
      ring
    calc (∑ i in Finset.range nof_cb,
            rm_length nof_re_pdsch nof_cb nof_layers bits_per_symbol i)
        = (∑ i in Finset.range nof_cb,
            rm_length_re nof_re_pdsch nof_cb i * (nof_layers * bits_per_symbol)) :=
          Finset.sum_congr rfl (fun i _ => hfact i)
      _ = (∑ i in Finset.range nof_cb, rm_length_re nof_re_pdsch nof_cb i)
            * (nof_layers * bits_per_symbol) := by
          rw [Finset.sum_mul]
      _ = nof_re_pdsch * (nof_layers * bits_per_symbol) := by
          rw [sum_rm_length_re _ _ hn]
      _ = cw_length nof_re_pdsch nof_layers bits_per_symbol := by
          unfold cw_length
          ring
  · intro i hi
    exact if_pos hi
  · intro i hi
    exact if_neg (Nat.not_lt_of_ge hi)

/-- Witness for C3 at a concrete input: 10 REs over 3 codeblocks, 2 layers,
QPSK (2 bits per symbol). -/
theorem rm_length_spec_witness :
    (0 < 3)
    ∧ (∑ i in Finset.range 3, rm_length 10 3 2 2 i) = cw_length 10 2 2 := by
  refine ⟨by decide, (rm_length_spec 10 3 2 2 (by decide)).1⟩

/-! ### Scrambling initialization (`save_inputs`, lines 124-137) -/

/-- Codeword index, fixed at `save_inputs` line 125. -/
def i_cw : Nat := 0

/-- Scrambling initial state computed at `save_inputs` line 137.  The C++
expression `(rnti << 15U) + (i_cw << 14U) + n_id` is evaluated in 32-bit
unsigned arithmetic, hence the `% 2 ^ 32`. -/
def scrambler_c_init (rnti n_id : Nat) : Nat :=
  ((rnti <<< 15) + (i_cw <<< 14) + n_id) % 2 ^ 32

lemma two_pow_mul_add_eq_lor (a : Nat) {b i : Nat} (hb : b < 2 ^ i) :
    2 ^ i * a + b = (2 ^ i * a) ||| b := by
  apply Nat.eq_of_testBit_eq
  intro j
  rw [Nat.testBit_lor, Nat.testBit_mul_pow_two_add a hb j, Nat.testBit_mul_pow_two]
  by_cases hj : j < i
  · have hge : ¬ j ≥ i := by omega
    simp [hj, hge]
  · have hge : j ≥ i := by omega
    have hbj : b.testBit j = false := by
      apply Nat.testBit_lt_two_pow
      calc b < 2 ^ i := hb
        _ ≤ 2 ^ j := Nat.pow_le_pow_right (by decide) hge
    simp [hj, hge, hbj]

/-- C5: the scrambling sequence is initialized with
`c_init = (RNTI << 15) | (i_cw << 14) | n_id` where `i_cw = 0`; the `+` used by
the code coincides with `|` because the three summands occupy disjoint bit
ranges for any valid RNTI (16 bits) and scrambling identity (below `2 ^ 14`). -/
theorem scrambler_c_init_spec (rnti n_id : Nat) (hrnti : rnti < 2 ^ 16)
    (hn_id : n_id < 2 ^ 14) :
    scrambler_c_init rnti n_id = (rnti <<< 15) ||| (i_cw <<< 14) ||| n_id := by
  unfold scrambler_c_init i_cw
  simp only [Nat.zero_shiftLeft, Nat.add_zero, Nat.or_zero]
  rw [Nat.shiftLeft_eq]
  have hlt : rnti * 2 ^ 15 + n_id < 2 ^ 32 := by
    have h1 : rnti * 2 ^ 15 ≤ (2 ^ 16 - 1) * 2 ^ 15 :=
      Nat.mul_le_mul_right _ (by omega)
    omega
  rw [Nat.mod_eq_of_lt hlt]
  have hb : n_id < 2 ^ 15 := by omega
  have := two_pow_mul_add_eq_lor rnti hb
  rw [Nat.mul_comm (2 ^ 15) rnti] at this
  exact this

/-- Witness for C5 at a concrete input: RNTI 0x4601, n_id 17. -/
theorem scrambler_c_init_spec_witness :
    (0x4601 < 2 ^ 16) ∧ (17 < 2 ^ 14)
    ∧ scrambler_c_init 0x4601 17 = (0x4601 <<< 15) ||| (i_cw <<< 14) ||| 17 := by
  refine ⟨by decide, by decide, scrambler_c_init_spec 0x4601 17 (by decide) (by decide)⟩

/-! ### Codeblock worker scheduling (`fork_cb_batches`, lines 265-344)

The codeblock workers share an atomic counter `cb_counter`.  Each worker loops
on `fetch_add(1)`, processes the remapped codeblock while the fetched value is
below `nof_cb`, and leaves its drain loop at the first fetched value that is
not.  The model below runs one atomic step per scheduler decision, so the
theorems quantify over every interleaving of the workers. -/

/-- Number of codeblock worker tasks, `fork_cb_batches` lines 268-271: the
processor pool capacity capped by the number of codeblocks. -/
def nof_cb_tasks (capacity nof_cb : Nat) : Nat := min capacity nof_cb

/-- Atomic `fetch_add(1)`: returns the old counter value and the incremented
counter. -/
def fetch_add (cb_counter : Nat) : Nat × Nat := (cb_counter, cb_counter + 1)

/-- Index remapping, line 288: `absolute_i_cb = nof_cb - 1 - absolute_i_cb`,
so the TB-CRC-bearing last codeblock is processed first. -/
def remap_i_cb (nof_cb absolute_i_cb : Nat) : Nat := nof_cb - 1 - absolute_i_cb

/-- Number of information bits of codeblock `i_cb`, line 291:
`min(cb_info_bits, tbs - cb_info_bits * i_cb)`. -/
def nof_info_bits (cb_info_bits tbs i_cb : Nat) : Nat :=
  min cb_info_bits (tbs - cb_info_bits * i_cb)

/-- State of the codeblock worker pool: the shared `cb_counter` and one flag
per worker recording whether that worker has left its drain loop. -/
structure cb_pool_state where
  cb_counter : Nat
  exited : List Bool
deriving DecidableEq, Repr

/-- Initial pool state, lines 274-275: `cb_counter = 0` and every spawned
worker inside its drain loop. -/
def cb_pool_init (nof_cb_tasks : Nat) : cb_pool_state :=
  { cb_counter := 0, exited := List.replicate nof_cb_tasks false }

/-- One scheduler step: worker `w`, if it exists and is still in its drain
loop, performs `fetch_add(1)` on the shared counter; a fetched value below
`nof_cb` selects the remapped codeblock for processing (lines 283-288), any
other fetched value makes the worker leave the loop (line 283).  Returns the
new state and the codeblock processed in this step, if any. -/
def cb_step (nof_cb : Nat) (s : cb_pool_state) (w : Nat) :
    cb_pool_state × Option Nat :=
  match s.exited.get? w with
  | some false =>
      let r := fetch_add s.cb_counter
      if r.1 < nof_cb then
        ({ s with cb_counter := r.2 }, some (remap_i_cb nof_cb r.1))
      else
        ({ cb_counter := r.2, exited := s.exited.set w true }, none)
  | _ => (s, none)

/-- Run a schedule (an arbitrary list of worker choices) from a state,
collecting the global sequence of processed codeblock indices. -/
def cb_run (nof_cb : Nat) (s : cb_pool_state) : List Nat → cb_pool_state × List Nat
  | [] => (s, [])
  | w :: sched =>
      let step := cb_step nof_cb s w
      let rest := cb_run nof_cb step.1 sched
      (rest.1, step.2.toList ++ rest.2)

/-- Every worker has left its drain loop. -/
def all_exited (s : cb_pool_state) : Prop := ∀ b ∈ s.exited, b = true

instance (s : cb_pool_state) : Decidable (all_exited s) := by
  unfold all_exited
  infer_instance

lemma cb_step_exited_length (nof_cb : Nat) (s : cb_pool_state) (w : Nat) :
    ((cb_step nof_cb s w).1).exited.length = s.exited.length := by
  unfold cb_step
  rcases h : s.exited.get? w with _ | b
  · simp [h]
  · rcases b with _ | _
    · simp only [h]
      by_cases hlt : (fetch_add s.cb_counter).1 < nof_cb
      · rw [if_pos hlt]
      · rw [if_neg hlt]
        exact List.length_set _ _ _
    · simp [h]

/-- The processed sequence is fully determined by the shared counter: whenever
the schedule drains every worker, the run from counter value `c` processes
exactly the remapped indices of `c, c+1, ..., nof_cb - 1` in fetch order. -/
lemma cb_run_out_characterization (nof_cb : Nat) (sched : List Nat) :
    ∀ s : cb_pool_state, s.exited ≠ [] →
    ((∃ b ∈ s.exited, b = true) → nof_cb ≤ s.cb_counter) →
    all_exited (cb_run nof_cb s sched).1 →
    (cb_run nof_cb s sched).2
      = (List.range' s.cb_counter (nof_cb - s.cb_counter)).map (remap_i_cb nof_cb) := by
  induction sched with
  | nil =>
      intro s hne hinv hdone
      obtain ⟨b, bs, hbs⟩ := List.exists_cons_of_ne_nil hne
      have hb : b ∈ s.exited := by
        rw [hbs]
        exact List.mem_cons_self _ _
      have hbtrue : b = true := hdone b hb
      have : nof_cb ≤ s.cb_counter := hinv ⟨b, hb, hbtrue⟩
      simp [cb_run, Nat.sub_eq_zero_of_le this]
  | cons w sched ih =>
      intro s hne hinv hdone
      show ((cb_run nof_cb (cb_step nof_cb s w).1 sched).1,
        (cb_step nof_cb s w).2.toList ++ (cb_run nof_cb (cb_step nof_cb s w).1 sched).2).2 = _
      have hdone' : all_exited (cb_run nof_cb (cb_step nof_cb s w).1 sched).1 := hdone
      rcases hget : s.exited.get? w with _ | b
      · -- worker id out of range: no-op step
        have hstep : cb_step nof_cb s w = (s, none) := by
          unfold cb_step
          rw [hget]
        rw [hstep] at hdone' ⊢
        simpa using ih s hne hinv hdone'
      · rcases b with _ | _
        · -- worker alive: it performs a fetch_add
          by_cases hlt : s.cb_counter < nof_cb
          · have hstep : cb_step nof_cb s w
                = ({ s with cb_counter := s.cb_counter + 1 },
                   some (remap_i_cb nof_cb s.cb_counter)) := by
              unfold cb_step fetch_add
              rw [hget]
              simp [hlt]
            rw [hstep] at hdone' ⊢
            have hrec := ih { s with cb_counter := s.cb_counter + 1 }
              (by simpa using hne) (fun hx => Nat.le_succ_of_le (hinv hx)) hdone'
            simp only [hrec, Option.toList_some, List.singleton_append]
            have hrange : List.range' s.cb_counter (nof_cb - s.cb_counter)
                = s.cb_counter :: List.range' (s.cb_counter + 1) (nof_cb - (s.cb_counter + 1)) := by
              have hn : nof_cb - s.cb_counter = (nof_cb - (s.cb_counter + 1)) + 1 := by
                omega
              rw [hn, List.range'_succ]
            rw [hrange]
            rfl
          · have hstep : cb_step nof_cb s w
                = ({ cb_counter := s.cb_counter + 1, exited := s.exited.set w true },
                   none) := by
              unfold cb_step fetch_add
              rw [hget]
              simp [hlt]
            rw [hstep] at hdone' ⊢
            have hge : nof_cb ≤ s.cb_counter := Nat.le_of_not_lt hlt
            have hrec := ih { cb_counter := s.cb_counter + 1, exited := s.exited.set w true }
              (by
                intro hcon
                apply hne
                have := congrArg List.length hcon
                simp only [List.length_set, List.length_nil] at this
                exact List.eq_nil_of_length_eq_zero this)
              (fun _ => Nat.le_succ_of_le hge) hdone'
            simp only [hrec, Option.toList_none, List.nil_append]
            have h1 : nof_cb - s.cb_counter = 0 := Nat.sub_eq_zero_of_le hge
            have h2 : nof_cb - (s.cb_counter + 1) = 0 := by omega
            rw [h1, h2]
            rfl
        · -- worker already exited: no-op step
          have hstep : cb_step nof_cb s w = (s, none) := by
            unfold cb_step
            rw [hget]
          rw [hstep] at hdone' ⊢
          simpa using ih s hne hinv hdone'

lemma map_remap_range (n : Nat) :
    (List.range n).map (remap_i_cb n) = (List.range n).reverse := by
  have h := List.reverse_range' 0 n
  rw [← List.range_eq_range'] at h
  rw [h]
  apply List.map_congr_left
  intro i _
  unfold remap_i_cb
  omega

/-- C4: with the shared codeblock counter initialized to 0, each fetched index
remapped to `nof_cb - 1 - i`, and a drain loop that exits at the first fetched
index not below `nof_cb`, any schedule that drains all
`min(capacity, nof_cb)` workers processes every codeblock index in
`[0, nof_cb)` exactly once, processes the TB-CRC-bearing last codeblock first,
and assigns codeblock `i_cb` the information-bit count
`min(cb_info_bits, tbs - cb_info_bits * i_cb)`. -/
theorem fork_cb_batches_spec (capacity nof_cb cb_info_bits tbs : Nat)
    (sched : List Nat) (hcap : 0 < capacity) (hcb : 0 < nof_cb)
    (hdone : all_exited
      (cb_run nof_cb (cb_pool_init (nof_cb_tasks capacity nof_cb)) sched).1) :
    (cb_run nof_cb (cb_pool_init (nof_cb_tasks capacity nof_cb)) sched).2
        = (List.range nof_cb).reverse
    ∧ ((cb_run nof_cb (cb_pool_init (nof_cb_tasks capacity nof_cb)) sched).2).head?
        = some (nof_cb - 1)
    ∧ ((cb_run nof_cb (cb_pool_init (nof_cb_tasks capacity nof_cb)) sched).2).Nodup
    ∧ (∀ i, i ∈ (cb_run nof_cb (cb_pool_init (nof_cb_tasks capacity nof_cb)) sched).2
        ↔ i < nof_cb)
    ∧ (∀ i, i < nof_cb →
        nof_info_bits cb_info_bits tbs i = min cb_info_bits (tbs - cb_info_bits * i)) := by
  have hW : 0 < nof_cb_tasks capacity nof_cb := by
    unfold nof_cb_tasks
    omega
  have hne : (cb_pool_init (nof_cb_tasks capacity nof_cb)).exited ≠ [] := by
    unfold cb_pool_init
    simp only [ne_eq, List.replicate_eq_nil_iff]
    omega
  have hinv : (∃ b ∈ (cb_pool_init (nof_cb_tasks capacity nof_cb)).exited, b = true) →
      nof_cb ≤ (cb_pool_init (nof_cb_tasks capacity nof_cb)).cb_counter := by
    rintro ⟨b, hb, rfl⟩
    exact absurd (List.eq_of_mem_replicate hb) (by decide)
  have hchar := cb_run_out_characterization nof_cb sched
    (cb_pool_init (nof_cb_tasks capacity nof_cb)) hne hinv hdone
  have hctr : (cb_pool_init (nof_cb_tasks capacity nof_cb)).cb_counter = 0 := rfl
  rw [hctr, Nat.sub_zero] at hchar
  have hrange : List.range' 0 nof_cb = List.range nof_cb := by
    rw [List.range_eq_range']
  rw [hrange, map_remap_range] at hchar
  refine ⟨hchar, ?_, ?_, ?_, ?_⟩
  · rw [hchar]
    rcases Nat.exists_eq_succ_of_ne_zero (Nat.pos_iff_ne_zero.mp hcb) with ⟨m, rfl⟩
    rw [List.range_succ]
    simp
  · rw [hchar]
    exact List.nodup_reverse.mpr (List.nodup_range nof_cb)
  · intro i
    rw [hchar, List.mem_reverse, List.mem_range]
  · intro i _
    rfl

/-- Witness for C4 at a concrete input: 2 workers, 3 codeblocks, schedule
`[0, 1, 0, 0, 1]` (worker 0 fetches 0, worker 1 fetches 1, worker 0 fetches 2
then drains, worker 1 drains). -/
theorem fork_cb_batches_spec_witness :
    (0 < 2) ∧ (0 < 3)
    ∧ all_exited (cb_run 3 (cb_pool_init (nof_cb_tasks 2 3)) [0, 1, 0, 0, 1]).1
    ∧ (cb_run 3 (cb_pool_init (nof_cb_tasks 2 3)) [0, 1, 0, 0, 1]).2
        = (List.range 3).reverse :=
  ⟨by decide, by decide, by decide,
    (fork_cb_batches_spec 2 3 5 13 [0, 1, 0, 0, 1] (by decide) (by decide)
      (by decide)).1⟩

/-! ### Asynchronous task accounting (`process`, lines 45-109, and
`fork_cb_batches`, lines 320-328)

`process()` forks the DM-RS task, the optional PT-RS task and
`K = min(capacity, nof_cb)` codeblock workers.  `async_task_counter` starts at
2 and is incremented once when PT-RS is configured; each of DM-RS and PT-RS
decrements it once at the end of its work, and the last codeblock worker (the
one that decrements `cb_task_counter` from 1) decrements it once.  Whichever
decrement observes the old value 1 invokes `notifier.on_finish_processing()`.
The model is a trace semantics: a trace is any interleaving of the tasks'
event sequences, each consisting of the task's grid writes followed by its
counter decrement.  Inline execution after an executor enqueue rejection only
restricts which interleavings occur (the rejected task's events run on the
caller), so the theorems, quantified over all interleavings, cover it. -/

/-- Identifier of an asynchronous producer inside one `process()` call. -/
inductive task_id where
  | cb (w : Nat)
  | dmrs
  | ptrs
deriving DecidableEq, Repr

/-- An observable event of one `process()` call: a task writing one sample to
the grid writer, or a task finishing (reaching its counter decrement). -/
inductive pevent where
  | write (t : task_id) (sample : Nat)
  | finish (t : task_id)
deriving DecidableEq, Repr

/-- The task that produced an event. -/
def pevent.owner : pevent → task_id
  | .write t _ => t
  | .finish t => t

/-- The tasks spawned by one `process()` call: `K` codeblock workers, the
DM-RS task, and the PT-RS task when PT-RS is configured (lines 61-87, 90-105,
332-343). -/
def spawned_tasks (K : Nat) (has_ptrs : Bool) : List task_id :=
  (List.range K).map task_id.cb ++ [task_id.dmrs]
    ++ (if has_ptrs then [task_id.ptrs] else [])

/-- Event sequence of one task: all its grid writes, then its finish. -/
def task_events (writes : task_id → List Nat) (t : task_id) : List pevent :=
  (writes t).map (pevent.write t) ++ [pevent.finish t]

/-- A trace is valid when it is an interleaving of the spawned tasks' event
sequences: projecting it onto any spawned task yields exactly that task's
sequence, and every event belongs to a spawned task. -/
def valid_trace (K : Nat) (has_ptrs : Bool) (writes : task_id → List Nat)
    (tr : List pevent) : Prop :=
  (∀ t ∈ spawned_tasks K has_ptrs,
      tr.filter (fun e => e.owner == t) = task_events writes t)
  ∧ (∀ e ∈ tr, e.owner ∈ spawned_tasks K has_ptrs)

instance valid_trace_decidable (K : Nat) (has_ptrs : Bool)
    (writes : task_id → List Nat) (tr : List pevent) :
    Decidable (valid_trace K has_ptrs writes tr) := by
  unfold valid_trace
  infer_instance

/-- Counter state of one `process()` call. -/
structure process_state where
  async_task_counter : Nat
  cb_task_counter : Nat
  notify_count : Nat
deriving DecidableEq, Repr

/-- Number of PT-RS tasks: one when PT-RS is configured, none otherwise
(line 61). -/
def ptrs_task_count (has_ptrs : Bool) : Nat := if has_ptrs then 1 else 0

/-- Initial counters: `async_task_counter = 2`, plus 1 when PT-RS is
configured (lines 58-62); `cb_task_counter = K` (line 274); the notifier has
not run. -/
def process_init (K : Nat) (has_ptrs : Bool) : process_state :=
  { async_task_counter := 2 + ptrs_task_count has_ptrs,
    cb_task_counter := K,
    notify_count := 0 }

/-- `async_task_counter.fetch_sub(1)`: when the old value is 1 the notifier's
`on_finish_processing` runs (lines 73-76, 98-101, 324-327). -/
def async_decrement (s : process_state) : process_state :=
  { s with
    async_task_counter := s.async_task_counter - 1,
    notify_count :=
      if s.async_task_counter = 1 then s.notify_count + 1 else s.notify_count }

/-- Effect of one event on the counters: a codeblock worker leaving its drain
loop decrements `cb_task_counter`, and the last one (old value 1) also
decrements `async_task_counter` (lines 320-328); the DM-RS and PT-RS tasks
decrement `async_task_counter` directly; grid writes do not touch the
counters. -/
def process_step (s : process_state) : pevent → process_state
  | .write _ _ => s
  | .finish (.cb _) =>
      if s.cb_task_counter = 1 then
        async_decrement { s with cb_task_counter := s.cb_task_counter - 1 }
      else
        { s with cb_task_counter := s.cb_task_counter - 1 }
  | .finish .dmrs => async_decrement s
  | .finish .ptrs => async_decrement s

/-- Counter state after a list of events. -/
def process_run (K : Nat) (has_ptrs : Bool) (tr : List pevent) : process_state :=
  tr.foldl process_step (process_init K has_ptrs)

/-- Recognizes the finish event of a codeblock worker. -/
def is_cb_finish : pevent → Bool
  | .finish (.cb _) => true
  | _ => false

/-- Number of codeblock workers that have finished in a trace. -/
def cb_finished (p : List pevent) : Nat := p.countP is_cb_finish

/-- Number of DM-RS finishes in a trace. -/
def dmrs_finished (p : List pevent) : Nat := p.count (pevent.finish .dmrs)

/-- Number of PT-RS finishes in a trace. -/
def ptrs_finished (p : List pevent) : Nat := p.count (pevent.finish .ptrs)

/-- Number of `async_task_counter` decrements a trace has triggered: the
codeblock-worker group counts once all `K` workers have finished. -/
def groups_done (K : Nat) (p : List pevent) : Nat :=
  (if cb_finished p = K then 1 else 0) + dmrs_finished p + ptrs_finished p

lemma cb_finished_append (p q : List pevent) :
    cb_finished (p ++ q) = cb_finished p + cb_finished q :=
  List.countP_append _ _ _

lemma dmrs_finished_append (p q : List pevent) :
    dmrs_finished (p ++ q) = dmrs_finished p + dmrs_finished q :=
  List.count_append _ _ _

lemma ptrs_finished_append (p q : List pevent) :
    ptrs_finished (p ++ q) = ptrs_finished p + ptrs_finished q :=
  List.count_append _ _ _

/-- The counters after any event list are determined by how many codeblock
workers, DM-RS tasks and PT-RS tasks have finished in it, as long as those
counts respect the actual task multiplicities. -/
lemma ite_one_zero_cases (c : Prop) [Decidable c] :
    (c ∧ (if c then (1 : Nat) else 0) = 1)
    ∨ (¬ c ∧ (if c then (1 : Nat) else 0) = 0) := by
  by_cases h : c <;> simp [h]

lemma groups_done_cases (K : Nat) (q : List pevent) :
    (cb_finished q = K
      ∧ groups_done K q = 1 + dmrs_finished q + ptrs_finished q)
    ∨ (cb_finished q ≠ K
      ∧ groups_done K q = dmrs_finished q + ptrs_finished q) := by
  unfold groups_done
  by_cases h : cb_finished q = K <;> simp [h]

lemma ptrs_task_count_le_one (has_ptrs : Bool) : ptrs_task_count has_ptrs ≤ 1 := by
  cases has_ptrs <;> simp [ptrs_task_count]

/-- The counters after any event list are determined by how many codeblock
workers, DM-RS tasks and PT-RS tasks have finished in it, as long as those
counts respect the actual task multiplicities. -/
lemma process_run_characterization (K : Nat) (has_ptrs : Bool) (hK : 0 < K)
    (p : List pevent) (hcb : cb_finished p ≤ K) (hd : dmrs_finished p ≤ 1)
    (hp : ptrs_finished p ≤ ptrs_task_count has_ptrs) :
    (process_run K has_ptrs p).cb_task_counter = K - cb_finished p
    ∧ (process_run K has_ptrs p).async_task_counter
        = (2 + ptrs_task_count has_ptrs) - groups_done K p
    ∧ ((groups_done K p = 2 + ptrs_task_count has_ptrs
          ∧ (process_run K has_ptrs p).notify_count = 1)
        ∨ (groups_done K p ≠ 2 + ptrs_task_count has_ptrs
          ∧ (process_run K has_ptrs p).notify_count = 0)) := by
  have hPB : ptrs_task_count has_ptrs ≤ 1 := ptrs_task_count_le_one has_ptrs
  induction p using List.reverseRecOn with
  | nil =>
      have hc0 : cb_finished ([] : List pevent) = 0 := rfl
      have hd0 : dmrs_finished ([] : List pevent) = 0 := rfl
      have hp0 : ptrs_finished ([] : List pevent) = 0 := rfl
      have hg0 := groups_done_cases K ([] : List pevent)
      refine ⟨?_, ?_, ?_⟩
      · show K = K - cb_finished ([] : List pevent)
        omega
      · show 2 + ptrs_task_count has_ptrs
          = (2 + ptrs_task_count has_ptrs) - groups_done K ([] : List pevent)
        omega
      · show (groups_done K ([] : List pevent) = 2 + ptrs_task_count has_ptrs ∧ 0 = 1)
          ∨ (groups_done K ([] : List pevent) ≠ 2 + ptrs_task_count has_ptrs ∧ 0 = 0)
        omega
  | append_singleton p e ih =>
      have hcbe := cb_finished_append p [e]
      have hde := dmrs_finished_append p [e]
      have hpe := ptrs_finished_append p [e]
      have hcb' : cb_finished p ≤ K := by omega
      have hd' : dmrs_finished p ≤ 1 := by omega
      have hp' : ptrs_finished p ≤ ptrs_task_count has_ptrs := by omega
      obtain ⟨ih1, ih2, ih3⟩ := ih hcb' hd' hp'
      have hFp := groups_done_cases K p
      have hFe := groups_done_cases K (p ++ [e])
      have hrun : process_run K has_ptrs (p ++ [e])
          = process_step (process_run K has_ptrs p) e := by
        unfold process_run
        rw [List.foldl_append, List.foldl_cons, List.foldl_nil]
      rcases e with ⟨t, x⟩ | t
      · -- a grid write leaves all counters unchanged
        have e1 : cb_finished (p ++ [pevent.write t x]) = cb_finished p := by
          rw [cb_finished_append]
          simp [cb_finished, List.countP_cons, is_cb_finish]
        have e2 : dmrs_finished (p ++ [pevent.write t x]) = dmrs_finished p := by
          rw [dmrs_finished_append]
          simp [dmrs_finished, List.count_cons]
        have e3 : ptrs_finished (p ++ [pevent.write t x]) = ptrs_finished p := by
          rw [ptrs_finished_append]
          simp [ptrs_finished, List.count_cons]
        have hstep : process_step (process_run K has_ptrs p) (pevent.write t x)
            = process_run K has_ptrs p := rfl
        rw [hrun, hstep]
        refine ⟨?_, ?_, ?_⟩ <;> omega
      · rcases t with w | _ | _
        · -- a codeblock worker finishes
          have e1 : cb_finished (p ++ [pevent.finish (task_id.cb w)])
              = cb_finished p + 1 := by
            rw [cb_finished_append]
            simp [cb_finished, List.countP_cons, is_cb_finish]
          have e2 : dmrs_finished (p ++ [pevent.finish (task_id.cb w)])
              = dmrs_finished p := by
            rw [dmrs_finished_append]
            simp [dmrs_finished, List.count_cons]
          have e3 : ptrs_finished (p ++ [pevent.finish (task_id.cb w)])
              = ptrs_finished p := by
            rw [ptrs_finished_append]
            simp [ptrs_finished, List.count_cons]
          have hcb1 : cb_finished p + 1 ≤ K := by omega
          rw [hrun]
          by_cases hc : (process_run K has_ptrs p).cb_task_counter = 1
          · have hstep : process_step (process_run K has_ptrs p)
                (pevent.finish (task_id.cb w))
                = async_decrement { process_run K has_ptrs p with
                    cb_task_counter := (process_run K has_ptrs p).cb_task_counter - 1 } := by
              unfold process_step
              rw [if_pos hc]
            rw [hstep]
            unfold async_decrement
            refine ⟨?_, ?_, ?_⟩
            · show (process_run K has_ptrs p).cb_task_counter - 1
                = K - cb_finished (p ++ [pevent.finish (task_id.cb w)])
              omega
            · show (process_run K has_ptrs p).async_task_counter - 1
                = (2 + ptrs_task_count has_ptrs)
                  - groups_done K (p ++ [pevent.finish (task_id.cb w)])
              omega
            · show (groups_done K (p ++ [pevent.finish (task_id.cb w)])
                    = 2 + ptrs_task_count has_ptrs
                  ∧ (if (process_run K has_ptrs p).async_task_counter = 1
                      then (process_run K has_ptrs p).notify_count + 1
                      else (process_run K has_ptrs p).notify_count) = 1)
                ∨ (groups_done K (p ++ [pevent.finish (task_id.cb w)])
                    ≠ 2 + ptrs_task_count has_ptrs
                  ∧ (if (process_run K has_ptrs p).async_task_counter = 1
                      then (process_run K has_ptrs p).notify_count + 1
                      else (process_run K has_ptrs p).notify_count) = 0)
              split_ifs <;> omega
          · have hstep : process_step (process_run K has_ptrs p)
                (pevent.finish (task_id.cb w))
                = { process_run K has_ptrs p with
                    cb_task_counter := (process_run K has_ptrs p).cb_task_counter - 1 } := by
              unfold process_step
              rw [if_neg hc]
            rw [hstep]
            refine ⟨?_, ?_, ?_⟩
            · show (process_run K has_ptrs p).cb_task_counter - 1
                = K - cb_finished (p ++ [pevent.finish (task_id.cb w)])
              omega
            · show (process_run K has_ptrs p).async_task_counter
                = (2 + ptrs_task_count has_ptrs)
                  - groups_done K (p ++ [pevent.finish (task_id.cb w)])
              omega
            · show (groups_done K (p ++ [pevent.finish (task_id.cb w)])
                    = 2 + ptrs_task_count has_ptrs
                  ∧ (process_run K has_ptrs p).notify_count = 1)
                ∨ (groups_done K (p ++ [pevent.finish (task_id.cb w)])
                    ≠ 2 + ptrs_task_count has_ptrs
                  ∧ (process_run K has_ptrs p).notify_count = 0)
              omega
        · -- the DM-RS task finishes
          have e1 : cb_finished (p ++ [pevent.finish task_id.dmrs])
              = cb_finished p := by
            rw [cb_finished_append]
            simp [cb_finished, List.countP_cons, is_cb_finish]
          have e2 : dmrs_finished (p ++ [pevent.finish task_id.dmrs])
              = dmrs_finished p + 1 := by
            rw [dmrs_finished_append]
            simp [dmrs_finished, List.count_cons]
          have e3 : ptrs_finished (p ++ [pevent.finish task_id.dmrs])
              = ptrs_finished p := by
            rw [ptrs_finished_append]
            simp [ptrs_finished, List.count_cons]
          have hd1 : dmrs_finished p + 1 ≤ 1 := by omega
          have hstep : process_step (process_run K has_ptrs p)
              (pevent.finish task_id.dmrs)
              = async_decrement (process_run K has_ptrs p) := rfl
          rw [hrun, hstep]
          unfold async_decrement
          refine ⟨?_, ?_, ?_⟩
          · show (process_run K has_ptrs p).cb_task_counter
              = K - cb_finished (p ++ [pevent.finish task_id.dmrs])
            omega
          · show (process_run K has_ptrs p).async_task_counter - 1
              = (2 + ptrs_task_count has_ptrs)
                - groups_done K (p ++ [pevent.finish task_id.dmrs])
            omega
          · show (groups_done K (p ++ [pevent.finish task_id.dmrs])
                  = 2 + ptrs_task_count has_ptrs
                ∧ (if (process_run K has_ptrs p).async_task_counter = 1
                    then (process_run K has_ptrs p).notify_count + 1
                    else (process_run K has_ptrs p).notify_count) = 1)
              ∨ (groups_done K (p ++ [pevent.finish task_id.dmrs])
                  ≠ 2 + ptrs_task_count has_ptrs
                ∧ (if (process_run K has_ptrs p).async_task_counter = 1
                    then (process_run K has_ptrs p).notify_count + 1
                    else (process_run K has_ptrs p).notify_count) = 0)
            split_ifs <;> omega
        · -- the PT-RS task finishes
          have e1 : cb_finished (p ++ [pevent.finish task_id.ptrs])
              = cb_finished p := by
            rw [cb_finished_append]
            simp [cb_finished, List.countP_cons, is_cb_finish]
          have e2 : dmrs_finished (p ++ [pevent.finish task_id.ptrs])
              = dmrs_finished p := by
            rw [dmrs_finished_append]
            simp [dmrs_finished, List.count_cons]
          have e3 : ptrs_finished (p ++ [pevent.finish task_id.ptrs])
              = ptrs_finished p + 1 := by
            rw [ptrs_finished_append]
            simp [ptrs_finished, List.count_cons]
          have hp1 : ptrs_finished p + 1 ≤ ptrs_task_count has_ptrs := by omega
          have hstep : process_step (process_run K has_ptrs p)
              (pevent.finish task_id.ptrs)
              = async_decrement (process_run K has_ptrs p) := rfl
          rw [hrun, hstep]
          unfold async_decrement
          refine ⟨?_, ?_, ?_⟩
          · show (process_run K has_ptrs p).cb_task_counter
              = K - cb_finished (p ++ [pevent.finish task_id.ptrs])
            omega
          · show (process_run K has_ptrs p).async_task_counter - 1
              = (2 + ptrs_task_count has_ptrs)
                - groups_done K (p ++ [pevent.finish task_id.ptrs])
            omega
          · show (groups_done K (p ++ [pevent.finish task_id.ptrs])
                  = 2 + ptrs_task_count has_ptrs
                ∧ (if (process_run K has_ptrs p).async_task_counter = 1
                    then (process_run K has_ptrs p).notify_count + 1
                    else (process_run K has_ptrs p).notify_count) = 1)
              ∨ (groups_done K (p ++ [pevent.finish task_id.ptrs])
                  ≠ 2 + ptrs_task_count has_ptrs
                ∧ (if (process_run K has_ptrs p).async_task_counter = 1
                    then (process_run K has_ptrs p).notify_count + 1
                    else (process_run K has_ptrs p).notify_count) = 0)
            split_ifs <;> omega

lemma cb_mem_spawned_tasks (K : Nat) (has_ptrs : Bool) (w : Nat) :
    task_id.cb w ∈ spawned_tasks K has_ptrs ↔ w < K := by
  unfold spawned_tasks
  cases has_ptrs <;> simp

lemma ptrs_mem_spawned_tasks (K : Nat) (has_ptrs : Bool) :
    task_id.ptrs ∈ spawned_tasks K has_ptrs ↔ has_ptrs = true := by
  unfold spawned_tasks
  cases has_ptrs <;> simp

lemma dmrs_mem_spawned_tasks (K : Nat) (has_ptrs : Bool) :
    task_id.dmrs ∈ spawned_tasks K has_ptrs := by
  unfold spawned_tasks
  cases has_ptrs <;> simp

/-- In a valid trace, every spawned task finishes exactly once. -/
lemma count_finish_eq_one (K : Nat) (has_ptrs : Bool) (writes : task_id → List Nat)
    (tr : List pevent) (hv : valid_trace K has_ptrs writes tr) (t : task_id)
    (ht : t ∈ spawned_tasks K has_ptrs) :
    tr.count (pevent.finish t) = 1 := by
  have hfil := hv.1 t ht
  have howner : (fun e => pevent.owner e == t) (pevent.finish t) = true := by
    simp [pevent.owner]
  have h1 : List.count (pevent.finish t)
        (List.filter (fun e => pevent.owner e == t) tr)
      = List.count (pevent.finish t) tr :=
    List.count_filter howner
  have h1 := h1.symm
  rw [hfil] at h1
  rw [h1]
  unfold task_events
  rw [List.count_append]
  have h2 : ((writes t).map (pevent.write t)).count (pevent.finish t) = 0 := by
    rw [List.count_eq_zero]
    simp
  rw [h2]
  simp

/-- In a trace whose events all belong to spawned tasks, the number of
codeblock-worker finishes is the sum over the workers of their finish
counts. -/
lemma cb_finished_eq_sum (K : Nat) (has_ptrs : Bool) (tr : List pevent)
    (howners : ∀ e ∈ tr, pevent.owner e ∈ spawned_tasks K has_ptrs) :
    cb_finished tr
      = ∑ w in Finset.range K, tr.count (pevent.finish (task_id.cb w)) := by
  induction tr with
  | nil => simp [cb_finished]
  | cons e rest ih =>
      have howners' : ∀ x ∈ rest, pevent.owner x ∈ spawned_tasks K has_ptrs :=
        fun x hx => howners x (List.mem_cons_of_mem _ hx)
      have hrest := ih howners'
      unfold cb_finished at hrest ⊢
      rw [List.countP_cons]
      have hcnt : ∀ w : Nat, (e :: rest).count (pevent.finish (task_id.cb w))
          = rest.count (pevent.finish (task_id.cb w))
            + (if e = pevent.finish (task_id.cb w) then 1 else 0) := by
        intro w
        rw [List.count_cons]
        simp [beq_iff_eq]
      rw [Finset.sum_congr rfl (fun w _ => hcnt w), Finset.sum_add_distrib, ← hrest]
      rcases he : e with ⟨t, x⟩ | t
      · have hz : is_cb_finish (pevent.write t x) = false := rfl
        rw [hz]
        have : ∀ w ∈ Finset.range K,
            (if pevent.write t x = pevent.finish (task_id.cb w) then 1 else 0)
              = 0 := by
          intro w _
          simp
        rw [Finset.sum_congr rfl this]
        simp
      · rcases t with w0 | _ | _
        · have h1 : is_cb_finish (pevent.finish (task_id.cb w0)) = true := rfl
          rw [h1]
          have hw0 : w0 < K := by
            have := howners e (List.mem_cons_self _ _)
            rw [he] at this
            exact (cb_mem_spawned_tasks K has_ptrs w0).mp this
          have heq : ∀ w ∈ Finset.range K,
              (if pevent.finish (task_id.cb w0) = pevent.finish (task_id.cb w)
                then (1 : Nat) else 0)
                = (if w0 = w then (1 : Nat) else 0) := by
            intro w _
            simp
          rw [Finset.sum_congr rfl heq, Finset.sum_ite_eq (Finset.range K) w0 (fun _ => 1)]
          simp [hw0]
        · have h1 : is_cb_finish (pevent.finish task_id.dmrs) = false := rfl
          rw [h1]
          have : ∀ w ∈ Finset.range K,
              (if pevent.finish task_id.dmrs = pevent.finish (task_id.cb w)
                then (1 : Nat) else 0) = 0 := by
            intro w _
            simp
          rw [Finset.sum_congr rfl this]
          simp
        · have h1 : is_cb_finish (pevent.finish task_id.ptrs) = false := rfl
          rw [h1]
          have : ∀ w ∈ Finset.range K,
              (if pevent.finish task_id.ptrs = pevent.finish (task_id.cb w)
                then (1 : Nat) else 0) = 0 := by
            intro w _
            simp
          rw [Finset.sum_congr rfl this]
          simp

/-- In a valid trace all `K` codeblock workers finish, the DM-RS task
finishes once, and the PT-RS task finishes exactly when configured. -/
lemma valid_trace_totals (K : Nat) (has_ptrs : Bool) (writes : task_id → List Nat)
    (tr : List pevent) (hv : valid_trace K has_ptrs writes tr) :
    cb_finished tr = K ∧ dmrs_finished tr = 1
      ∧ ptrs_finished tr = ptrs_task_count has_ptrs := by
  refine ⟨?_, ?_, ?_⟩
  · rw [cb_finished_eq_sum K has_ptrs tr hv.2]
    have : ∀ w ∈ Finset.range K, tr.count (pevent.finish (task_id.cb w)) = 1 := by
      intro w hw
      rw [Finset.mem_range] at hw
      exact count_finish_eq_one K has_ptrs writes tr hv (task_id.cb w)
        ((cb_mem_spawned_tasks K has_ptrs w).mpr hw)
    rw [Finset.sum_congr rfl this]
    simp
  · exact count_finish_eq_one K has_ptrs writes tr hv task_id.dmrs
      (dmrs_mem_spawned_tasks K has_ptrs)
  · cases has_ptrs
    · show ptrs_finished tr = 0
      unfold ptrs_finished
      rw [List.count_eq_zero]
      intro hmem
      have hmem2 : task_id.ptrs ∈ spawned_tasks K false := hv.2 _ hmem
      have hfalse := (ptrs_mem_spawned_tasks K false).mp hmem2
      exact Bool.false_ne_true hfalse
    · show ptrs_finished tr = 1
      exact count_finish_eq_one K true writes tr hv task_id.ptrs
        ((ptrs_mem_spawned_tasks K true).mpr rfl)

/-- In a valid trace, if some write of task `t` lies in the suffix `s`, then
the finish of `t` also lies in `s` (each task writes before finishing). -/
lemma finish_in_suffix (K : Nat) (has_ptrs : Bool) (writes : task_id → List Nat)
    (p s : List pevent) (hv : valid_trace K has_ptrs writes (p ++ s))
    (t : task_id) (ht : t ∈ spawned_tasks K has_ptrs) (x : Nat)
    (hx : pevent.write t x ∈ s) : pevent.finish t ∈ s := by
  have hfil := hv.1 t ht
  rw [List.filter_append] at hfil
  have hsne : s.filter (fun e => pevent.owner e == t) ≠ [] := by
    intro hnil
    have : pevent.write t x ∈ s.filter (fun e => pevent.owner e == t) := by
      rw [List.mem_filter]
      exact ⟨hx, by simp [pevent.owner]⟩
    rw [hnil] at this
    exact absurd this (List.not_mem_nil _)
  rcases hlast : (s.filter (fun e => pevent.owner e == t)).getLast? with _ | y
  · rw [List.getLast?_eq_none_iff] at hlast
    exact absurd hlast hsne
  · have h1 : (p.filter (fun e => pevent.owner e == t)
        ++ s.filter (fun e => pevent.owner e == t)).getLast? = some y := by
      rw [List.getLast?_append, hlast]
      rfl
    rw [hfil] at h1
    unfold task_events at h1
    rw [List.getLast?_concat] at h1
    have hy : y = pevent.finish t := by
      simpa using h1.symm
    have : y ∈ s.filter (fun e => pevent.owner e == t) :=
      List.mem_of_getLast?_eq_some hlast
    rw [hy] at this
    exact (List.mem_filter.mp this).1

/-- C1: in every `process()` invocation, `async_task_counter` starts at 2,
plus 1 when PT-RS is configured; across every interleaving of the
`K = min(capacity, nof_cb)` codeblock workers (the last of which decrements
`async_task_counter` exactly once), the DM-RS task and the optional PT-RS
task, `notifier.on_finish_processing()` runs exactly once, the counter drains
to 0, and at any point where the notification has fired no grid write of any
task, codeblock data, DM-RS or PT-RS, is still outstanding. -/
theorem process_notifier_spec (capacity nof_cb : Nat) (has_ptrs : Bool)
    (writes : task_id → List Nat) (tr : List pevent)
    (hcap : 0 < capacity) (hncb : 0 < nof_cb)
    (hvalid : valid_trace (nof_cb_tasks capacity nof_cb) has_ptrs writes tr) :
    (process_run (nof_cb_tasks capacity nof_cb) has_ptrs tr).notify_count = 1
    ∧ (process_run (nof_cb_tasks capacity nof_cb) has_ptrs tr).async_task_counter = 0
    ∧ (process_init (nof_cb_tasks capacity nof_cb) has_ptrs).async_task_counter
        = 2 + ptrs_task_count has_ptrs
    ∧ (∀ p s, tr = p ++ s →
        1 ≤ (process_run (nof_cb_tasks capacity nof_cb) has_ptrs p).notify_count →
        ∀ t x, pevent.write t x ∉ s) := by
  have hK : 0 < nof_cb_tasks capacity nof_cb := by
    unfold nof_cb_tasks
    omega
  obtain ⟨hcbtr, hdtr, hptr⟩ :=
    valid_trace_totals (nof_cb_tasks capacity nof_cb) has_ptrs writes tr hvalid
  have hPB : ptrs_task_count has_ptrs ≤ 1 := ptrs_task_count_le_one has_ptrs
  obtain ⟨c1, c2, c3⟩ := process_run_characterization (nof_cb_tasks capacity nof_cb)
    has_ptrs hK tr (by omega) (by omega) (by omega)
  have hGtr := groups_done_cases (nof_cb_tasks capacity nof_cb) tr
  refine ⟨by omega, by omega, rfl, ?_⟩
  intro p s htr hnot t x hx
  subst htr
  have hcba := cb_finished_append p s
  have hda := dmrs_finished_append p s
  have hpa := ptrs_finished_append p s
  obtain ⟨d1, d2, d3⟩ := process_run_characterization (nof_cb_tasks capacity nof_cb)
    has_ptrs hK p (by omega) (by omega) (by omega)
  have hGp := groups_done_cases (nof_cb_tasks capacity nof_cb) p
  -- the notification forces every finish into the prefix
  have hcbp : cb_finished p = nof_cb_tasks capacity nof_cb ∧ dmrs_finished p = 1
      ∧ ptrs_finished p = ptrs_task_count has_ptrs := by omega
  have hto : pevent.owner (pevent.write t x) ∈ spawned_tasks
      (nof_cb_tasks capacity nof_cb) has_ptrs :=
    hvalid.2 _ (List.mem_append_right p hx)
  have hto' : t ∈ spawned_tasks (nof_cb_tasks capacity nof_cb) has_ptrs := hto
  have hfin : pevent.finish t ∈ s :=
    finish_in_suffix (nof_cb_tasks capacity nof_cb) has_ptrs writes p s hvalid
      t hto' x hx
  rcases t with w | _ | _
  · have : 0 < cb_finished s := by
      apply List.countP_pos_iff.mpr
      exact ⟨pevent.finish (task_id.cb w), hfin, rfl⟩
    omega
  · have : 0 < dmrs_finished s := List.count_pos_iff.mpr hfin
    omega
  · have : 0 < ptrs_finished s := List.count_pos_iff.mpr hfin
    have hb : has_ptrs = true :=
      (ptrs_mem_spawned_tasks (nof_cb_tasks capacity nof_cb) has_ptrs).mp hto'
    have : ptrs_task_count has_ptrs = 1 := by
      rw [hb]
      rfl
    omega

/-- Witness for C1 at a concrete input: one codeblock worker, DM-RS, no
PT-RS, one write per task, with the interleaving that runs the codeblock
worker to completion first. -/
theorem process_notifier_spec_witness :
    (0 < 1) ∧ (0 < 1)
    ∧ valid_trace (nof_cb_tasks 1 1) false (fun _ => [7])
        [pevent.write (task_id.cb 0) 7, pevent.finish (task_id.cb 0),
         pevent.write task_id.dmrs 7, pevent.finish task_id.dmrs]
    ∧ (process_run (nof_cb_tasks 1 1) false
        [pevent.write (task_id.cb 0) 7, pevent.finish (task_id.cb 0),
         pevent.write task_id.dmrs 7, pevent.finish task_id.dmrs]).notify_count = 1 :=
  ⟨by decide, by decide, by decide,
    (process_notifier_spec 1 1 false (fun _ => [7])
      [pevent.write (task_id.cb 0) 7, pevent.finish (task_id.cb 0),
       pevent.write task_id.dmrs 7, pevent.finish task_id.dmrs]
      (by decide) (by decide) (by decide)).1⟩

/-! ### Resource-grid determinism (`fork_cb_batches` line 314, test
`pdsch_processor_vectortest.cpp` lines 144-181)

Every sample the concurrent processor maps is produced by one of its tasks
and written once, to a location fixed by the PDU (the `re_offset` of the
codeblock, the DM-RS and PT-RS patterns); distinct writes target distinct
resource elements.  The executor only chooses the order in which the per-task
write sequences interleave.  The generic single-threaded processor and the
recorded golden vectors are not under `src/`; they are modelled from the
spec as the same deterministic write set applied sequentially. -/

/-- A resource-grid location: antenna port, OFDM symbol, subcarrier. -/
structure grid_loc where
  port : Nat
  symbol : Nat
  subcarrier : Nat
deriving DecidableEq, Repr

/-- Apply a list of sample writes (location, bit-exact sample encoding) to a
grid, in order; later writes overwrite earlier ones. -/
def apply_writes (ws : List (grid_loc × Nat)) (g : grid_loc → Option Nat) :
    grid_loc → Option Nat :=
  ws.foldl (fun acc w => fun loc => if loc = w.1 then some w.2 else acc loc) g

/-- Run an executor schedule over the per-task write queues: at each schedule
step the named task (if it exists and still has pending writes) performs its
next write.  Returns the remaining queues and the global write order. -/
def drain_queues {α : Type} : List (List α) → List Nat → List (List α) × List α
  | queues, [] => (queues, [])
  | queues, w :: sched =>
      match queues.get? w with
      | some (x :: q) =>
          let rest := drain_queues (queues.set w q) sched
          (rest.1, x :: rest.2)
      | _ => drain_queues queues sched

/-- A schedule is complete for the queues when it drains every task. -/
def all_drained {α : Type} (queues : List (List α)) (sched : List Nat) : Prop :=
  ∀ q ∈ (drain_queues queues sched).1, q = []

instance {α : Type} [DecidableEq α] (queues : List (List α)) (sched : List Nat) :
    Decidable (all_drained queues sched) := by
  unfold all_drained
  infer_instance

lemma flatten_set_perm {α : Type} :
    ∀ (queues : List (List α)) (w : Nat) (x : α) (q : List α),
    queues.get? w = some (x :: q) →
    List.Perm queues.flatten (x :: (queues.set w q).flatten) := by
  intro queues
  induction queues with
  | nil =>
      intro w x q h
      simp at h
  | cons h t ih =>
      intro w x q hget
      cases w with
      | zero =>
          simp only [List.get?_cons_zero, Option.some.injEq] at hget
          rw [hget]
          simp only [List.set_cons_zero, List.flatten_cons, List.cons_append]
          exact List.Perm.refl _
      | succ w =>
          simp only [List.get?_cons_succ] at hget
          have hperm := ih w x q hget
          have s1 : List.Perm ((h :: t).flatten) (h ++ (x :: (t.set w q).flatten)) := by
            rw [List.flatten_cons]
            exact hperm.append_left h
          have s2 : List.Perm (h ++ (x :: (t.set w q).flatten))
              (x :: (h ++ (t.set w q).flatten)) := List.perm_middle
          have s3 : x :: (h ++ (t.set w q).flatten)
              = x :: ((h :: t).set (w + 1) q).flatten := by
            rw [List.set_cons_succ, List.flatten_cons]
          rw [← s3]
          exact s1.trans s2

/-- The write order produced by any schedule, together with what is left in
the queues, is a permutation of all the tasks' writes. -/
lemma drain_queues_perm {α : Type} :
    ∀ (sched : List Nat) (queues : List (List α)),
    List.Perm
      ((drain_queues queues sched).2 ++ ((drain_queues queues sched).1).flatten)
      queues.flatten := by
  intro sched
  induction sched with
  | nil =>
      intro queues
      exact List.Perm.refl _
  | cons w sched ih =>
      intro queues
      rcases hq : queues.get? w with _ | ⟨_ | ⟨x, q⟩⟩
      · have hd : drain_queues queues (w :: sched) = drain_queues queues sched := by
          simp only [drain_queues, hq]
        rw [hd]
        exact ih queues
      · have hd : drain_queues queues (w :: sched) = drain_queues queues sched := by
          simp only [drain_queues, hq]
        rw [hd]
        exact ih queues
      · have hd : drain_queues queues (w :: sched)
            = ((drain_queues (queues.set w q) sched).1,
               x :: (drain_queues (queues.set w q) sched).2) := by
          simp only [drain_queues, hq]
        rw [hd]
        have s1 : List.Perm
            (x :: ((drain_queues (queues.set w q) sched).2
              ++ ((drain_queues (queues.set w q) sched).1).flatten))
            (x :: (queues.set w q).flatten) := (ih (queues.set w q)).cons x
        have s2 : List.Perm (x :: (queues.set w q).flatten) queues.flatten :=
          (flatten_set_perm queues w x q hq).symm
        exact s1.trans s2

/-- A complete schedule emits exactly the tasks' writes, as a permutation. -/
lemma drain_queues_complete_perm {α : Type} (queues : List (List α))
    (sched : List Nat) (hdone : all_drained queues sched) :
    List.Perm (drain_queues queues sched).2 queues.flatten := by
  have h := drain_queues_perm sched queues
  have hnil : ((drain_queues queues sched).1).flatten = [] :=
    List.flatten_eq_nil_iff.mpr hdone
  rw [hnil, List.append_nil] at h
  exact h

lemma apply_writes_not_mem {ws : List (grid_loc × Nat)} {loc : grid_loc}
    (h : ∀ w ∈ ws, w.1 ≠ loc) :
    ∀ g : grid_loc → Option Nat, apply_writes ws g loc = g loc := by
  induction ws with
  | nil =>
      intro g
      rfl
  | cons w ws ih =>
      intro g
      have hw : w.1 ≠ loc := h w (List.mem_cons_self _ _)
      have h' : ∀ v ∈ ws, v.1 ≠ loc := fun v hv => h v (List.mem_cons_of_mem _ hv)
      show apply_writes ws (fun l => if l = w.1 then some w.2 else g l) loc = g loc
      rw [ih h']
      simp [Ne.symm hw]

/-- With no two writes to the same location, the final value at each location
is the unique write to it, independently of the order. -/
lemma apply_writes_characterization :
    ∀ (ws : List (grid_loc × Nat)), (ws.map Prod.fst).Nodup →
    ∀ (g : grid_loc → Option Nat) (loc : grid_loc),
    apply_writes ws g loc
      = (ws.find? (fun w => w.1 == loc)).elim (g loc) (fun w => some w.2) := by
  intro ws
  induction ws with
  | nil =>
      intro _ g loc
      rfl
  | cons w ws ih =>
      intro hnd g loc
      have hnd' : (ws.map Prod.fst).Nodup := (List.nodup_cons.mp hnd).2
      have hwkeys : w.1 ∉ ws.map Prod.fst := (List.nodup_cons.mp hnd).1
      by_cases hw : w.1 = loc
      · have hfind : ((w :: ws).find? (fun v => v.1 == loc)) = some w :=
          List.find?_cons_of_pos _ (by simp [hw])
        rw [hfind]
        have hmem : ∀ v ∈ ws, v.1 ≠ loc := by
          intro v hv hveq
          apply hwkeys
          rw [hw, ← hveq]
          exact List.mem_map_of_mem Prod.fst hv
        show apply_writes ws (fun l => if l = w.1 then some w.2 else g l) loc
            = some w.2
        rw [apply_writes_not_mem hmem]
        simp [hw]
      · have hfind : ((w :: ws).find? (fun v => v.1 == loc))
            = ws.find? (fun v => v.1 == loc) :=
          List.find?_cons_of_neg _ (by simp [hw])
        rw [hfind]
        show apply_writes ws (fun l => if l = w.1 then some w.2 else g l) loc
            = (ws.find? (fun v => v.1 == loc)).elim (g loc) (fun v => some v.2)
        rw [ih hnd' (fun l => if l = w.1 then some w.2 else g l) loc]
        have : (if loc = w.1 then some w.2 else g loc) = g loc := by
          simp [Ne.symm hw]
        rw [this]

/-- Order independence: two orders of the same writes with pairwise distinct
locations produce identical grids. -/
lemma apply_writes_perm (ws₁ ws₂ : List (grid_loc × Nat))
    (hperm : List.Perm ws₁ ws₂) (hnd : (ws₁.map Prod.fst).Nodup)
    (g : grid_loc → Option Nat) :
    apply_writes ws₁ g = apply_writes ws₂ g := by
  have hnd₂ : (ws₂.map Prod.fst).Nodup := ((hperm.map Prod.fst).nodup_iff).mp hnd
  funext loc
  rw [apply_writes_characterization ws₁ hnd g loc,
    apply_writes_characterization ws₂ hnd₂ g loc]
  rcases h₁ : ws₁.find? (fun w => w.1 == loc) with _ | w
  · rcases h₂ : ws₂.find? (fun w => w.1 == loc) with _ | v
    · rw [h₁, h₂]
    · have hv : v ∈ ws₁ := hperm.symm.subset (List.mem_of_find?_eq_some h₂)
      have hvp := List.find?_some h₂
      rw [List.find?_eq_none] at h₁
      exact absurd hvp (h₁ v hv)
  · rcases h₂ : ws₂.find? (fun w => w.1 == loc) with _ | v
    · have hw : w ∈ ws₂ := hperm.subset (List.mem_of_find?_eq_some h₁)
      have hwp := List.find?_some h₁
      rw [List.find?_eq_none] at h₂
      exact absurd hwp (h₂ w hw)
    · have hw : w ∈ ws₁ := List.mem_of_find?_eq_some h₁
      have hv : v ∈ ws₁ := hperm.symm.subset (List.mem_of_find?_eq_some h₂)
      have hwp : w.1 = loc := by
        have := List.find?_some h₁
        simpa using this
      have hvp : v.1 = loc := by
        have := List.find?_some h₂
        simpa using this
      have hwv : w = v :=
        List.inj_on_of_nodup_map hnd hw hv (by rw [hwp, hvp])
      rw [h₁, h₂, hwv]

/-- Modelled from the spec: the generic single-threaded PDSCH processor
(`pdsch_processor_impl`, not under `src/`) produces, for a fixed PDU,
transport block and configuration, the same deterministic per-task sample
writes as the concurrent processor and applies them in one sequential pass;
golden test vectors record its resource-grid contents (spec 4.1, 4.2 and the
vector-reproducibility seed test). -/
def generic_processor_grid (task_writes : List (List (grid_loc × Nat)))
    (g0 : grid_loc → Option Nat) : grid_loc → Option Nat :=
  apply_writes task_writes.flatten g0

/-- The grid produced by the concurrent PDSCH processor when the executor
interleaves the per-task write queues according to `sched`. -/
def concurrent_processor_grid (task_writes : List (List (grid_loc × Nat)))
    (sched : List Nat) (g0 : grid_loc → Option Nat) : grid_loc → Option Nat :=
  apply_writes (drain_queues task_writes sched).2 g0

/-- C2: for a fixed PDU, transport block and configuration, the concurrent
PDSCH processor produces, under every complete executor schedule (in
particular any schedule of 16 workers), a resource grid identical to the
generic processor's, and hence equal to the golden test vector recorded from
it; the writes of distinct tasks target pairwise distinct resource
elements. -/
theorem pdsch_vector_reproducibility (task_writes : List (List (grid_loc × Nat)))
    (sched : List Nat) (g0 golden : grid_loc → Option Nat)
    (hdone : all_drained task_writes sched)
    (hnd : (task_writes.flatten.map Prod.fst).Nodup)
    (hgolden : golden = generic_processor_grid task_writes g0) :
    concurrent_processor_grid task_writes sched g0
        = generic_processor_grid task_writes g0
    ∧ concurrent_processor_grid task_writes sched g0 = golden := by
  have hperm := drain_queues_complete_perm task_writes sched hdone
  have hnd₁ : ((drain_queues task_writes sched).2.map Prod.fst).Nodup :=
    ((hperm.map Prod.fst).nodup_iff).mpr hnd
  have hmain : concurrent_processor_grid task_writes sched g0
      = generic_processor_grid task_writes g0 :=
    apply_writes_perm _ _ hperm hnd₁ g0
  exact ⟨hmain, by rw [hgolden, hmain]⟩

/-- Witness for C2 at a concrete input: two tasks, one write each to distinct
subcarriers, schedule running task 1 before task 0. -/
theorem pdsch_vector_reproducibility_witness :
    all_drained [[(grid_loc.mk 0 0 0, 11)], [(grid_loc.mk 0 0 1, 22)]] [1, 0, 0, 1]
    ∧ (([[(grid_loc.mk 0 0 0, 11)], [(grid_loc.mk 0 0 1, 22)]]
        : List (List (grid_loc × Nat))).flatten.map Prod.fst).Nodup
    ∧ concurrent_processor_grid
        [[(grid_loc.mk 0 0 0, 11)], [(grid_loc.mk 0 0 1, 22)]] [1, 0, 0, 1]
        (fun _ => none)
      = generic_processor_grid
        [[(grid_loc.mk 0 0 0, 11)], [(grid_loc.mk 0 0 1, 22)]] (fun _ => none) :=
  ⟨by decide, by decide,
    (pdsch_vector_reproducibility
      [[(grid_loc.mk 0 0 0, 11)], [(grid_loc.mk 0 0 1, 22)]] [1, 0, 0, 1]
      (fun _ => none)
      (generic_processor_grid
        [[(grid_loc.mk 0 0 0, 11)], [(grid_loc.mk 0 0 1, 22)]] (fun _ => none))
      (by decide) (by decide) rfl).1⟩

/-! ### `save_inputs` derivation (`save_inputs`, lines 111-263)

The derivation uses LDPC and RE-counting helpers
(`ldpc::compute_nof_codeblocks`, `pdsch_compute_nof_data_re`, ...) whose
sources are not under `src/`; they enter the model as an explicit bundle of
functions.  The floating-point amplitude scaling applied to the precoding
matrix (lines 256-262) is outside the model; the precoding matrix itself
enters only through its layer count. -/

/-- One entry of the PDU codeword list: modulation scheme (as its enum
encoding) and redundancy version. -/
structure pdsch_codeword where
  modulation : Nat
  rv : Nat
deriving DecidableEq, Repr, Inhabited

/-- The PDSCH PDU fields read by `save_inputs`.  Bit masks are lists of
booleans; the reserved RE patterns are kept abstract (one encoding per
pattern); the precoding matrix is represented by its number of layers, the
only attribute the modelled derivation reads. -/
structure pdsch_pdu where
  rnti : Nat
  n_id : Nat
  bwp_start_rb : Nat
  bwp_size_rb : Nat
  freq_alloc : List Bool
  start_symbol_index : Nat
  nof_symbols : Nat
  dmrs_symbol_mask : List Bool
  nof_cdm_groups_without_data : Nat
  ptrs : Bool
  codewords : List pdsch_codeword
  ldpc_base_graph : Nat
  tbs_lbrm : Nat
  reserved : List Nat
  precoding_nof_layers : Nat
deriving DecidableEq, Repr

/-- The allocation-relevant projection of the PDU: the fields from which the
number of PDSCH data REs is derived (allocation minus reserved minus DM-RS
pattern, spec 4.1). -/
structure pdsch_alloc_view where
  bwp_start_rb : Nat
  bwp_size_rb : Nat
  freq_alloc : List Bool
  start_symbol_index : Nat
  nof_symbols : Nat
  dmrs_symbol_mask : List Bool
  nof_cdm_groups_without_data : Nat
  reserved : List Nat
deriving DecidableEq, Repr

/-- Projection of a PDU onto its allocation-relevant fields. -/
def alloc_view (pdu : pdsch_pdu) : pdsch_alloc_view :=
  { bwp_start_rb := pdu.bwp_start_rb,
    bwp_size_rb := pdu.bwp_size_rb,
    freq_alloc := pdu.freq_alloc,
    start_symbol_index := pdu.start_symbol_index,
    nof_symbols := pdu.nof_symbols,
    dmrs_symbol_mask := pdu.dmrs_symbol_mask,
    nof_cdm_groups_without_data := pdu.nof_cdm_groups_without_data,
    reserved := pdu.reserved }

/-- Modelled from the spec: the LDPC and RE-counting helpers used by
`save_inputs` (`pdsch_compute_nof_data_re` from `pdsch_processor_helpers.h`
and the `ldpc` namespace functions from TS 38.212, none under `src/`) are
deterministic functions of the listed arguments.  `compute_nof_data_re`
depends only on the allocation view; the LDPC quantities depend on the TBS,
the base graph and the codeblock count; `get_bits_per_symbol` maps the
modulation scheme to its bits per symbol. -/
structure phy_helpers where
  compute_nof_data_re : pdsch_alloc_view → Nat
  compute_nof_codeblocks : Nat → Nat → Nat
  compute_tb_crc_size : Nat → Nat
  compute_lifting_size : Nat → Nat → Nat → Nat
  compute_codeblock_size : Nat → Nat → Nat
  compute_full_codeblock_size : Nat → Nat → Nat
  compute_N_ref : Nat → Nat → Nat
  get_bits_per_symbol : Nat → Nat

/-- Prefix RE count of codeblock `i_cb`: the running `re_count_sum` of the
loop at `save_inputs` lines 192-211 when iteration `i_cb` begins. -/
def re_count_before (nof_re_pdsch nof_cb i_cb : Nat) : Nat :=
  ((List.range i_cb).map (rm_length_re nof_re_pdsch nof_cb)).sum

/-- The state derived by `save_inputs` that feeds scrambling, codeblock
derivation and encoding. -/
structure pdsch_save_state where
  data : List Nat
  nof_ch_symbols : Nat
  c_init : Nat
  tbs : Nat
  nof_cb : Nat
  cb_info_bits : Nat
  segment_length : Nat
  zero_pad : Nat
  rm_length_list : List Nat
  cw_offset_list : List Nat
  re_offset_list : List Nat
  modulation : Nat
  rv : Nat
  Nref : Nat
  cw_length_bits : Nat
deriving DecidableEq, Repr

/-- `save_inputs` (lines 111-215): keeps only the first transport block
(line 121: `data = std::move(data_.front())`), fixes the codeword index to 0
(line 125), reads modulation and redundancy version from
`config.codewords.front()` (lines 165, 178), and derives the transport-block,
codeblock and rate-match quantities. -/
def save_inputs (H : phy_helpers) (data_ : List (List Nat)) (pdu : pdsch_pdu) :
    pdsch_save_state :=
  let data := data_.headI
  let nof_layers := pdu.precoding_nof_layers
  let nof_re_pdsch := H.compute_nof_data_re (alloc_view pdu)
  let tbs := 8 * data.length
  let nof_cb := H.compute_nof_codeblocks tbs pdu.ldpc_base_graph
  let nof_tb_crc_bits := H.compute_tb_crc_size tbs
  let nof_cb_crc_bits := if 1 < nof_cb then 24 else 0
  let nof_tb_bits_out := tbs + nof_tb_crc_bits + nof_cb_crc_bits * nof_cb
  let cb_info_bits := divide_ceil nof_tb_bits_out nof_cb - nof_cb_crc_bits
  let lifting_size := H.compute_lifting_size tbs pdu.ldpc_base_graph nof_cb
  let modulation := (pdu.codewords.headI).modulation
  let bits_per_symbol := H.get_bits_per_symbol modulation
  { data := data,
    nof_ch_symbols := nof_layers * nof_re_pdsch,
    c_init := scrambler_c_init pdu.rnti pdu.n_id,
    tbs := tbs,
    nof_cb := nof_cb,
    cb_info_bits := cb_info_bits,
    segment_length := H.compute_codeblock_size pdu.ldpc_base_graph lifting_size,
    zero_pad := (cb_info_bits + nof_cb_crc_bits) * nof_cb - nof_tb_bits_out,
    rm_length_list := (List.range nof_cb).map
      (rm_length nof_re_pdsch nof_cb nof_layers bits_per_symbol),
    cw_offset_list := (List.range nof_cb).map
      (fun i => re_count_before nof_re_pdsch nof_cb i * nof_layers * bits_per_symbol),
    re_offset_list := (List.range nof_cb).map (re_count_before nof_re_pdsch nof_cb),
    modulation := modulation,
    rv := (pdu.codewords.headI).rv,
    Nref := H.compute_N_ref pdu.tbs_lbrm nof_cb,
    cw_length_bits := cw_length nof_re_pdsch nof_layers bits_per_symbol }

/-- C10: `process()` uses only the first transport block of the list and
fixes the codeword index to 0: any further transport blocks and any codeword
entries past the first leave every quantity used for scrambling
initialization, codeblock derivation and encoding unchanged, for every
choice of the (deterministic) LDPC and RE-counting helpers. -/
theorem save_inputs_first_tb_and_codeword_only (H : phy_helpers)
    (tb : List Nat) (rest rest' : List (List Nat)) (pdu : pdsch_pdu)
    (cw : pdsch_codeword) (cws cws' : List pdsch_codeword) :
    save_inputs H (tb :: rest) { pdu with codewords := cw :: cws }
      = save_inputs H (tb :: rest') { pdu with codewords := cw :: cws' } :=
  rfl

end pdsch_processor_concurrent_impl

namespace srs_cu_cp

/-! ### CU-CP F1 Setup admission (spec 4.4; behaviour exercised by
`cu_cp_connectivity_test.cpp` lines 84-240) -/

/-- A served cell reported by a DU in its F1 Setup Request: the gNB-id
carried in the NR cell identity, plus an abstract cell payload. -/
structure du_cell where
  gnb_id : Nat
  cell_info : Nat
deriving DecidableEq, Repr

/-- A DU slot at the CU-CP.  A slot is created anonymous (no gNB-DU id, no
cells) on TNL accept and bound by a successful F1 Setup. -/
structure du_slot where
  id : Option Nat
  cells : List du_cell
deriving DecidableEq, Repr

/-- CU-CP connectivity state: whether NG setup has completed, the local
gNB-id, and the DU slots. -/
structure cu_cp_state where
  ng_connected : Bool
  local_gnb_id : Nat
  dus : List du_slot
deriving DecidableEq, Repr

/-- An F1 Setup Request: gNB-DU id and served cells. -/
structure f1_setup_request where
  gnb_du_id : Nat
  cells : List du_cell
deriving DecidableEq, Repr

/-- Outcome of the F1 Setup procedure. -/
inductive f1_setup_outcome where
  | response
  | failure
deriving DecidableEq, Repr

/-- Modelled from the spec: the CU-CP F1 Setup admission (spec 4.4; the
handler source is not under `src/`, its behaviour is fixed by
`cu_cp_connectivity_test.cpp` lines 123-240): respond F1 Setup Failure when
NG is not connected, when another live DU already holds the same gNB-DU id,
or when the gNB-id in the NR cell identity does not match the local gNB-id;
otherwise bind the requesting slot to the DU id, record the cells, and
respond F1 Setup Response. -/
def handle_f1_setup (st : cu_cp_state) (du_idx : Nat) (req : f1_setup_request) :
    cu_cp_state × f1_setup_outcome :=
  if st.ng_connected = false then (st, .failure)
  else if st.dus.any (fun d => d.id == some req.gnb_du_id) then (st, .failure)
  else if req.cells.any (fun c => c.gnb_id != st.local_gnb_id) then (st, .failure)
  else
    let bound_slot := du_slot.mk (some req.gnb_du_id) req.cells
    ({ st with dus := st.dus.set du_idx bound_slot }, .response)

/-- C6: F1 Setup is rejected, with the state (hence the anonymous slot)
unchanged, when NG is not connected, when a live DU already holds the same
gNB-DU id, or when the gNB-id of a served cell differs from the local
gNB-id; otherwise the slot is bound to the DU id with the cells recorded and
the CU-CP answers F1 Setup Response. -/
theorem handle_f1_setup_spec (st : cu_cp_state) (du_idx : Nat)
    (req : f1_setup_request) (slot : du_slot)
    (hslot : st.dus.get? du_idx = some slot) (hunbound : slot.id = none) :
    (st.ng_connected = false → handle_f1_setup st du_idx req = (st, .failure))
    ∧ (st.ng_connected = true →
        st.dus.any (fun d => d.id == some req.gnb_du_id) = true →
        handle_f1_setup st du_idx req = (st, .failure))
    ∧ (st.ng_connected = true →
        st.dus.any (fun d => d.id == some req.gnb_du_id) = false →
        req.cells.any (fun c => c.gnb_id != st.local_gnb_id) = true →
        handle_f1_setup st du_idx req = (st, .failure))
    ∧ (st.ng_connected = true →
        st.dus.any (fun d => d.id == some req.gnb_du_id) = false →
        req.cells.any (fun c => c.gnb_id != st.local_gnb_id) = false →
        (handle_f1_setup st du_idx req).2 = .response
        ∧ ((handle_f1_setup st du_idx req).1).dus.get? du_idx
            = some { id := some req.gnb_du_id, cells := req.cells }) := by
  have hlen : du_idx < st.dus.length := by
    rcases List.get?_eq_some.mp hslot with ⟨h, _⟩
    exact h
  refine ⟨?_, ?_, ?_, ?_⟩
  · intro h
    unfold handle_f1_setup
    rw [if_pos h]
  · intro h1 h2
    unfold handle_f1_setup
    rw [if_neg (by simp [h1])]
    rw [if_pos h2]
  · intro h1 h2 h3
    unfold handle_f1_setup
    rw [if_neg (by simp [h1]), h2, if_neg (by simp), h3, if_pos rfl]
  · intro h1 h2 h3
    unfold handle_f1_setup
    rw [if_neg (by simp [h1]), h2, if_neg (by simp), h3, if_neg (by simp)]
    refine ⟨rfl, ?_⟩
    show (st.dus.set du_idx (du_slot.mk (some req.gnb_du_id) req.cells)).get? du_idx
        = some (du_slot.mk (some req.gnb_du_id) req.cells)
    rw [List.get?_eq_getElem?]
    rw [List.getElem?_set_self hlen]

/-- Witness for C6 at a concrete input: NG connected, one anonymous slot,
matching gNB-id 0x19b, request with gNB-DU id 0x55. -/
theorem handle_f1_setup_spec_witness :
    ((cu_cp_state.mk true 0x19b [du_slot.mk none []]).dus.get? 0
        = some (du_slot.mk none []))
    ∧ ((du_slot.mk none []).id = none)
    ∧ ((cu_cp_state.mk true 0x19b [du_slot.mk none []]).ng_connected = true →
        ((cu_cp_state.mk true 0x19b [du_slot.mk none []]).dus.any
          (fun d => d.id == some 0x55) = false) →
        (([du_cell.mk 0x19b 0] : List du_cell).any
          (fun c => c.gnb_id != 0x19b) = false) →
        (handle_f1_setup (cu_cp_state.mk true 0x19b [du_slot.mk none []]) 0
          (f1_setup_request.mk 0x55 [du_cell.mk 0x19b 0])).2
            = f1_setup_outcome.response
        ∧ ((handle_f1_setup (cu_cp_state.mk true 0x19b [du_slot.mk none []]) 0
            (f1_setup_request.mk 0x55 [du_cell.mk 0x19b 0])).1).dus.get? 0
              = some (du_slot.mk (some 0x55) [du_cell.mk 0x19b 0])) :=
  ⟨by decide, by decide,
    (handle_f1_setup_spec (cu_cp_state.mk true 0x19b [du_slot.mk none []]) 0
      (f1_setup_request.mk 0x55 [du_cell.mk 0x19b 0]) (du_slot.mk none [])
      (by decide) (by decide)).2.2.2⟩

/-! ### UE attach without CU-UP (spec 4.4; behaviour exercised by
`cu_cp_connectivity_test.cpp` lines 350-402) -/

/-- A CU-CP UE record as visible to the connectivity tests: the DU-side
F1AP UE id and the C-RNTI. -/
structure attach_ue_rec where
  du_ue_f1ap_id : Nat
  crnti : Nat
deriving DecidableEq, Repr

/-- The CU-CP UE database, keyed by creation order. -/
structure ue_attach_state where
  ues : List attach_ue_rec
deriving DecidableEq, Repr

/-- F1AP PDUs the CU-CP sends towards the DU, abstracted to the fields the
connectivity test inspects. -/
inductive f1ap_tx_pdu where
  | dl_rrc_message_transfer (du_ue_f1ap_id : Nat) (srb_id : Nat)
  | ue_context_release_cmd (du_ue_f1ap_id : Nat) (srb_id : Nat)
      (carries_rrc_reject : Bool)
deriving DecidableEq, Repr

/-- SRB0 identifier. -/
def srb0 : Nat := 0

/-- Modelled from the spec: F1AP Initial UL RRC Message handling with NG and
F1 up (spec 4.4; the handler source is not under `src/`, its behaviour is
fixed by `cu_cp_connectivity_test.cpp` lines 313-402): the UE record is
created; with a CU-UP available the CU-CP answers with an RRC Setup carried
in a DL RRC Message Transfer on SRB0, and with no CU-UP it answers with an
F1AP UE Context Release Command carrying an RRC Reject on SRB0; no NGAP PDU
is emitted in either case; UE removal is deferred to the release
procedure. -/
def handle_initial_ul_rrc (st : ue_attach_state) (du_ue_f1ap_id crnti : Nat)
    (e1_available : Bool) : ue_attach_state × List f1ap_tx_pdu × List Nat :=
  let st' : ue_attach_state :=
    { ues := st.ues ++ [{ du_ue_f1ap_id := du_ue_f1ap_id, crnti := crnti }] }
  if e1_available then
    (st', [.dl_rrc_message_transfer du_ue_f1ap_id srb0], [])
  else
    (st', [.ue_context_release_cmd du_ue_f1ap_id srb0 true], [])

/-- Modelled from the spec: F1AP UE Context Release Complete removes the UE
from the CU-CP database (spec 4.4; `cu_cp_connectivity_test.cpp` lines
390-397). -/
def handle_ue_context_release_complete (st : ue_attach_state)
    (du_ue_f1ap_id : Nat) : ue_attach_state :=
  { ues := st.ues.filter (fun u => u.du_ue_f1ap_id != du_ue_f1ap_id) }

/-- C7: with NG and F1 up but no CU-UP, an Initial UL RRC Message produces
exactly one F1AP UE Context Release Command carrying an RRC Reject on SRB0
and no NGAP PDU; the UE stays in the database until the UE Context Release
Complete arrives, at which point it is removed. -/
theorem ue_attach_without_cu_up_spec (st : ue_attach_state)
    (du_ue_f1ap_id crnti : Nat)
    (hfresh : ∀ u ∈ st.ues, u.du_ue_f1ap_id ≠ du_ue_f1ap_id) :
    (handle_initial_ul_rrc st du_ue_f1ap_id crnti false).2.1
        = [f1ap_tx_pdu.ue_context_release_cmd du_ue_f1ap_id srb0 true]
    ∧ (handle_initial_ul_rrc st du_ue_f1ap_id crnti false).2.2 = []
    ∧ (attach_ue_rec.mk du_ue_f1ap_id crnti)
        ∈ ((handle_initial_ul_rrc st du_ue_f1ap_id crnti false).1).ues
    ∧ handle_ue_context_release_complete
        (handle_initial_ul_rrc st du_ue_f1ap_id crnti false).1 du_ue_f1ap_id
      = st := by
  refine ⟨rfl, rfl, ?_, ?_⟩
  · show (attach_ue_rec.mk du_ue_f1ap_id crnti)
        ∈ st.ues ++ [attach_ue_rec.mk du_ue_f1ap_id crnti]
    exact List.mem_append_right _ (List.mem_singleton_self _)
  · show ue_attach_state.mk
        ((st.ues ++ [attach_ue_rec.mk du_ue_f1ap_id crnti]).filter
          (fun u => u.du_ue_f1ap_id != du_ue_f1ap_id)) = st
    rw [List.filter_append]
    have h1 : st.ues.filter (fun u => u.du_ue_f1ap_id != du_ue_f1ap_id) = st.ues := by
      rw [List.filter_eq_self]
      intro u hu
      simpa using hfresh u hu
    have h2 : ([attach_ue_rec.mk du_ue_f1ap_id crnti] : List attach_ue_rec).filter
        (fun u => u.du_ue_f1ap_id != du_ue_f1ap_id) = [] := by
      simp
    rw [h1, h2, List.append_nil]

/-- Witness for C7 at a concrete input: empty UE database,
DU-UE-F1AP-id 0, C-RNTI 0x4601. -/
theorem ue_attach_without_cu_up_spec_witness :
    (∀ u ∈ (ue_attach_state.mk []).ues, u.du_ue_f1ap_id ≠ 0)
    ∧ (handle_initial_ul_rrc (ue_attach_state.mk []) 0 0x4601 false).2.1
        = [f1ap_tx_pdu.ue_context_release_cmd 0 srb0 true] :=
  ⟨by decide,
    (ue_attach_without_cu_up_spec (ue_attach_state.mk []) 0 0x4601 (by decide)).1⟩

/-! ### UE manager (`lib/cu_cp/ue_manager/ue_manager_impl.cpp`) -/

namespace ue_manager_impl

/-- The per-UE fields that `set_ue_du_context` updates on `cu_cp_ue`:
gNB-DU id, PCI and C-RNTI. -/
structure cu_cp_ue where
  du_id : Nat
  pci : Nat
  c_rnti : Nat
deriving DecidableEq, Repr

/-- UE manager state: the UE database `ues` (a map keyed by `ue_index`) and
the `pci_rnti_to_ue_index` lookup, both modelled as functional maps. -/
structure ue_manager where
  ues : Nat → Option cu_cp_ue
  pci_rnti_to_ue_index : Nat × Nat → Option Nat

/-- `ue_manager::get_ue_index` (lines 94-101): look up (pci, rnti); `none`
models `ue_index_t::invalid`. -/
def get_ue_index (m : ue_manager) (pci rnti : Nat) : Option Nat :=
  m.pci_rnti_to_ue_index (pci, rnti)

/-- `cu_cp_ue::update_du_ue` as called at line 142: store the DU id, PCI and
C-RNTI on the UE record. -/
def update_du_ue (ue : cu_cp_ue) (du_id pci rnti : Nat) : cu_cp_ue :=
  { du_id := du_id, pci := pci, c_rnti := rnti }

/-- Insert a UE record at `ue_index` into the UE map. -/
def map_insert_ue (f : Nat → Option cu_cp_ue) (ue_index : Nat) (ue' : cu_cp_ue) :
    Nat → Option cu_cp_ue :=
  fun i => if i = ue_index then some ue' else f i

/-- Insert the (pci, rnti) → ue_index entry into the lookup (the
`pci_rnti_to_ue_index.emplace` of line 145). -/
def lookup_insert (g : Nat × Nat → Option Nat) (pci rnti ue_index : Nat) :
    Nat × Nat → Option Nat :=
  fun k => if k = (pci, rnti) then some ue_index else g k

/-- `ue_manager::set_ue_du_context` (lines 123-150): returns `none` (the
nullptr return) with the state unchanged when the UE index is not in the
database (line 130) or when (pci, rnti) already maps to a UE (line 136);
otherwise updates the record (line 142) and installs
(pci, rnti) → ue_index in the lookup (line 145). -/
def set_ue_du_context (m : ue_manager) (ue_index du_id pci rnti : Nat) :
    Option (ue_manager × cu_cp_ue) :=
  match m.ues ue_index with
  | none => none
  | some ue =>
      if (get_ue_index m pci rnti).isSome then none
      else
        some ({ ues := map_insert_ue m.ues ue_index (update_du_ue ue du_id pci rnti),
                pci_rnti_to_ue_index :=
                  lookup_insert m.pci_rnti_to_ue_index pci rnti ue_index },
              update_du_ue ue du_id pci rnti)

/-- `ue_manager::find_ue` (lines 105-111). -/
def find_ue (m : ue_manager) (ue_index : Nat) : Option cu_cp_ue :=
  m.ues ue_index

/-- C8: after a successful `set_ue_du_context`, (PCI, C-RNTI) → ue_index →
(PCI, C-RNTI) is a round-trip identity: `get_ue_index` returns the UE's
index and the record at that index carries the same pair; and
`set_ue_du_context` refuses any (pci, rnti) pair that already maps to a UE
(in particular to another UE), so the pair stays unique across live UEs. -/
theorem pci_rnti_roundtrip :
    (∀ (m : ue_manager) (ue_index du_id pci rnti : Nat)
        (m' : ue_manager) (ue' : cu_cp_ue),
      set_ue_du_context m ue_index du_id pci rnti = some (m', ue') →
        get_ue_index m' pci rnti = some ue_index
        ∧ ∃ ue, find_ue m' ue_index = some ue ∧ ue.pci = pci ∧ ue.c_rnti = rnti)
    ∧ (∀ (m : ue_manager) (ue_index du_id pci rnti j : Nat),
        get_ue_index m pci rnti = some j →
        set_ue_du_context m ue_index du_id pci rnti = none) := by
  constructor
  · intro m ue_index du_id pci rnti m' ue' hset
    rcases hue : m.ues ue_index with _ | ue
    · simp only [set_ue_du_context, hue] at hset
      exact absurd hset (by simp)
    · simp only [set_ue_du_context, hue] at hset
      by_cases hmap : (get_ue_index m pci rnti).isSome = true
      · rw [if_pos hmap] at hset
        exact absurd hset (by simp)
      · rw [if_neg hmap] at hset
        have hm1 : m' = ue_manager.mk
            (map_insert_ue m.ues ue_index (update_du_ue ue du_id pci rnti))
            (lookup_insert m.pci_rnti_to_ue_index pci rnti ue_index) := by
          have := congrArg Prod.fst ((Option.some.injEq _ _).mp hset)
          exact this.symm
        refine ⟨?_, ?_⟩
        · rw [hm1]
          show lookup_insert m.pci_rnti_to_ue_index pci rnti ue_index (pci, rnti)
              = some ue_index
          unfold lookup_insert
          rw [if_pos rfl]
        · refine ⟨update_du_ue ue du_id pci rnti, ?_, rfl, rfl⟩
          rw [hm1]
          show map_insert_ue m.ues ue_index (update_du_ue ue du_id pci rnti) ue_index
              = some (update_du_ue ue du_id pci rnti)
          unfold map_insert_ue
          rw [if_pos rfl]
  · intro m ue_index du_id pci rnti j hmap
    rcases hue : m.ues ue_index with _ | ue
    · simp only [set_ue_du_context, hue]
    · simp only [set_ue_du_context, hue]
      rw [if_pos (by rw [get_ue_index] at hmap ⊢; rw [hmap]; rfl)]

/-- A concrete UE manager with a single UE at index 5 and an empty
(PCI, C-RNTI) lookup. -/
def roundtrip_example_m0 : ue_manager :=
  { ues := fun i => if i = 5 then some (cu_cp_ue.mk 0 0 0) else none,
    pci_rnti_to_ue_index := fun _ => none }

/-- The state after `set_ue_du_context roundtrip_example_m0 5 7 101 17921`. -/
def roundtrip_example_m1 : ue_manager :=
  { ues := map_insert_ue roundtrip_example_m0.ues 5
      (update_du_ue (cu_cp_ue.mk 0 0 0) 7 101 17921),
    pci_rnti_to_ue_index :=
      lookup_insert roundtrip_example_m0.pci_rnti_to_ue_index 101 17921 5 }

/-- Witness for C8 at a concrete input: UE index 5, DU id 7, PCI 101,
C-RNTI 17921. -/
theorem pci_rnti_roundtrip_witness :
    set_ue_du_context roundtrip_example_m0 5 7 101 17921
        = some (roundtrip_example_m1, update_du_ue (cu_cp_ue.mk 0 0 0) 7 101 17921)
    ∧ get_ue_index roundtrip_example_m1 101 17921 = some 5 :=
  ⟨rfl,
    (pci_rnti_roundtrip.1 roundtrip_example_m0 5 7 101 17921
      roundtrip_example_m1 (update_du_ue (cu_cp_ue.mk 0 0 0) 7 101 17921) rfl).1⟩

end ue_manager_impl

end srs_cu_cp

namespace srs_cu_up

/-! ### CU-UP F1-U bearer destruction (`lib/f1u/cu_up/f1u_bearer_impl.h`) -/

/-- The members of `f1u_bearer_impl` other than the demux registration, in
declaration order (header lines 56-69). -/
inductive f1u_member where
  | logger
  | tx_pdu_notifier
  | rx_delivery_notifier
  | rx_sdu_notifier
  | disconnector_ref
  | ul_teid_field
  | dl_notif_timer
  | discard_blocks
deriving DecidableEq, Repr

/-- An action performed while destroying the bearer: the destructor-body call
deregistering the uplink TEID from the demux, or the release of one member
resource. -/
inductive dtor_action where
  | disconnect_cu_bearer (ul_teid : Nat)
  | release_member (m : f1u_member)
deriving DecidableEq, Repr

/-- Destruction of an `f1u_bearer_impl` (header line 38):
`~f1u_bearer_impl() { disconnector.disconnect_cu_bearer(ul_teid); }` runs the
destructor body first; the member destructors then run in reverse declaration
order, per C++ object-destruction semantics. -/
def f1u_bearer_dtor_trace (ul_teid : Nat) : List dtor_action :=
  dtor_action.disconnect_cu_bearer ul_teid ::
    ([f1u_member.logger, f1u_member.tx_pdu_notifier, f1u_member.rx_delivery_notifier,
      f1u_member.rx_sdu_notifier, f1u_member.disconnector_ref, f1u_member.ul_teid_field,
      f1u_member.dl_notif_timer, f1u_member.discard_blocks].reverse.map
      dtor_action.release_member)

/-- C9: on destruction of a CU-UP F1-U bearer, the uplink TEID is
deregistered from the demux via the disconnector as the first destruction
action, before any member resource (timer, discard aggregate, notifier
references, ...) is released. -/
theorem f1u_bearer_dtor_spec (ul_teid : Nat) :
    (f1u_bearer_dtor_trace ul_teid).head?
        = some (dtor_action.disconnect_cu_bearer ul_teid)
    ∧ (∀ e ∈ (f1u_bearer_dtor_trace ul_teid).tail,
        ∃ m, e = dtor_action.release_member m)
    ∧ (∀ i e, (f1u_bearer_dtor_trace ul_teid).get? i = some e →
        (∃ m, e = dtor_action.release_member m) → 1 ≤ i) := by
  refine ⟨rfl, ?_, ?_⟩
  · intro e he
    fin_cases he <;> exact ⟨_, rfl⟩
  · intro i e hget hrel
    rcases hrel with ⟨m, rfl⟩
    cases i with
    | zero =>
        have : (f1u_bearer_dtor_trace ul_teid).get? 0
            = some (dtor_action.disconnect_cu_bearer ul_teid) := rfl
        rw [this] at hget
        exact absurd ((Option.some.injEq _ _).mp hget) (by simp)
    | succ n => omega

/-- Witness for C9 at a concrete input: uplink TEID 0x2a. -/
theorem f1u_bearer_dtor_spec_witness :
    (f1u_bearer_dtor_trace 0x2a).head?
        = some (dtor_action.disconnect_cu_bearer 0x2a) :=
  (f1u_bearer_dtor_spec 0x2a).1

end srs_cu_up

end srsran
